import Mathlib

/-!
Shallow embedding of `src/html_file.rs` from the simple_html_maker repository:
the escaping primitive, the four `HtmlElement` implementations, the builder
methods, and the recursive serializer `render_element`, together with theorems
settling the specification claims about them.
-/

/-- The apostrophe character, U+0027. -/
def apos : Char := Char.ofNat 39

/-- A one-character string holding a single apostrophe. -/
def aposStr : String := String.mk [apos]

/-- The double-quote character, U+0022. -/
def dquote : Char := Char.ofNat 34

/-- Character-level model of the external crate function
`html_escape::encode_text` used throughout `src/html_file.rs`: it
entity-encodes exactly the three characters ampersand, less-than and
greater-than, and leaves every other character (including double quotes and
apostrophes) unchanged, per that crate's documentation and as confirmed by
the repository's own test `test_xss_protection`. -/
def escapeChar (c : Char) : List Char :=
  if c = '&' then "&amp;".data
  else if c = '<' then "&lt;".data
  else if c = '>' then "&gt;".data
  else [c]

/-- `html_escape::encode_text` lifted to strings. -/
def encode_text (s : String) : String := String.mk (s.data.flatMap escapeChar)

/-- The function `encode_attribute` of `src/html_file.rs`, which simply calls
`encode_text` and converts the result to an owned string. -/
def encode_attribute (s : String) : String := encode_text s

/-- Rust `String::replace(pattern, to)` with the one-character pattern
apostrophe and replacement `"&#x27;"`, as performed in `TextElement::text`. -/
def replaceApos (s : String) : String :=
  String.mk (s.data.flatMap (fun c => if c = apos then "&#x27;".data else [c]))

/-- The view of an element through the `HtmlElement` trait interface of
`src/html_file.rs`: tag, attributes, text, children and the void flag. The
serializer `render_element` consumes elements only through this view. -/
inductive Node : Type where
  | mk : String → Option (List (String × String)) → Option String → List Node → Bool → Node

/-- Trait method `tag()`. -/
def Node.tag : Node → String
  | .mk t _ _ _ _ => t

/-- Trait method `attributes()`. -/
def Node.attrs : Node → Option (List (String × String))
  | .mk _ a _ _ _ => a

/-- Trait method `text()`. -/
def Node.text : Node → Option String
  | .mk _ _ x _ _ => x

/-- Trait method `children()`. -/
def Node.children : Node → List Node
  | .mk _ _ _ ch _ => ch

/-- Trait method `is_void_element()`. -/
def Node.is_void : Node → Bool
  | .mk _ _ _ _ v => v

/-- The attribute loop of `render_element`: each `(key, value)` pair is
appended as a space, the key, `="`, the value and a closing quote. -/
def attrPairs : List (String × String) → String
  | [] => ""
  | (k, v) :: rest => " " ++ k ++ "=\"" ++ v ++ "\"" ++ attrPairs rest

/-- Attribute rendering of `render_element`: `Some attrs` is emitted through
the loop, `None` contributes nothing. -/
def attrsStr : Option (List (String × String)) → String
  | none => ""
  | some l => attrPairs l

mutual
/-- The recursive serializer `render_element` of `src/html_file.rs`. It first
special-cases raw HTML (empty tag together with the void flag), then emits the
opening tag and attributes, then either ` />` for void elements or `>` followed
by the text, the recursively rendered children and the closing tag. -/
def render_element : Node → String
  | .mk t a x ch v =>
    if t.isEmpty && v then x.getD ""
    else if v then "<" ++ t ++ attrsStr a ++ " />"
    else "<" ++ t ++ attrsStr a ++ ">" ++ x.getD "" ++ renderList ch ++ "</" ++ t ++ ">"
/-- The child loop of `render_element`: children rendered left to right, each
fully before the next, results concatenated. -/
def renderList : List Node → String
  | [] => ""
  | n :: ns => render_element n ++ renderList ns
end

/-- Model of `std::collections::HashMap<String, String>` as a key-unique
association list: `insert` replaces the value stored under an existing key and
otherwise adds the new binding. The source's map iterates in an unspecified,
per-map-instance order (each `RandomState::new` draws a fresh key from a
thread-local counter); the list order here stands for the order one
particular map instance happens to iterate in, and statements that depend on
that order quantify over its permutations. -/
def hmInsert : List (String × String) → String → String → List (String × String)
  | [], k, v => [(k, v)]
  | (k0, v0) :: rest, k, v =>
    if k0 = k then (k0, v) :: rest else (k0, v0) :: hmInsert rest k v

/-- The four `HtmlElement` implementations of `src/html_file.rs`:
`TextElement` (its raw content), `RawHtml` (its raw content), `ImageElement`
(src, optional alt, extra attribute map) and `ContainerElement` (tag, extra
attribute map, children, class list, optional id). -/
inductive Element : Type where
  | textEl : String → Element
  | rawHtml : String → Element
  | imageEl : String → Option String → List (String × String) → Element
  | containerEl : String → List (String × String) → List Element → List String → Option String → Element

/-- `TextElement::text`: base escaping via `encode_text`, then the extra
apostrophe-to-`&#x27;` substitution, wrapped in `Some`. -/
def TextElement.text (content : String) : Option String :=
  some (replaceApos (encode_text content))

/-- `ImageElement::attributes`: `src` first (value escaped), then `alt` if
set (value escaped), then the extra attributes (keys kept as stored, values
escaped) in the order the map instance iterates in — unspecified in the
source, represented here by the stored list order and varied by permutation
where a claim is order-sensitive. -/
def imageAttributes (src : String) (alt : Option String)
    (attributes : List (String × String)) : Option (List (String × String)) :=
  let attrs := [("src", encode_attribute src)]
  let attrs := match alt with
    | some a => attrs ++ [("alt", encode_attribute a)]
    | none => attrs
  let attrs := attrs ++ attributes.map (fun kv => (kv.1, encode_attribute kv.2))
  some attrs

/-- `ContainerElement::attributes`: id first if set, then the space-joined
class list if non-empty, then the extra attributes (keys and values both
escaped) in the order the map instance iterates in — unspecified in the
source, represented here by the stored list order and varied by permutation
where a claim is order-sensitive; `None` when the assembled list is empty. -/
def containerAttributes (id : Option String) (classes : List String)
    (attributes : List (String × String)) : Option (List (String × String)) :=
  let result : List (String × String) := []
  let result := match id with
    | some i => result ++ [("id", encode_attribute i)]
    | none => result
  let result := if classes.isEmpty then result
    else result ++ [("class", encode_attribute (String.intercalate " " classes))]
  let result := result ++ attributes.map (fun kv => (encode_attribute kv.1, encode_attribute kv.2))
  if result.isEmpty then none else some result

mutual
/-- The trait view each variant presents to the serializer: `TextElement`
reports tag `span`, no attributes, escaped text, not void; `RawHtml` reports
the empty tag, its raw text and the void flag; `ImageElement` reports tag
`img`, its attributes and the void flag; `ContainerElement` reports its tag,
assembled attributes, no text, its children and not void. -/
def toNode : Element → Node
  | .textEl c => .mk "span" none (TextElement.text c) [] false
  | .rawHtml c => .mk "" none (some c) [] true
  | .imageEl src alt attrs => .mk "img" (imageAttributes src alt attrs) none [] true
  | .containerEl t attrs ch cls id =>
      .mk t (containerAttributes id cls attrs) none (toNodes ch) false
/-- Trait views of a child list, in order. -/
def toNodes : List Element → List Node
  | [] => []
  | e :: es => toNode e :: toNodes es
end

/-- Trait method `attributes()` of each variant. -/
def Element.attributes : Element → Option (List (String × String))
  | .textEl _ => none
  | .rawHtml _ => none
  | .imageEl src alt attrs => imageAttributes src alt attrs
  | .containerEl _ attrs _ cls id => containerAttributes id cls attrs

/-- Trait method `render()`: `RawHtml` overrides it to return its content
directly; every other variant uses the default implementation, which invokes
the serializer `render_element` on the element's trait view. -/
def Element.render : Element → String
  | .rawHtml c => c
  | .textEl c => render_element (toNode (.textEl c))
  | .imageEl src alt attrs => render_element (toNode (.imageEl src alt attrs))
  | .containerEl t attrs ch cls id => render_element (toNode (.containerEl t attrs ch cls id))

/-- `ImageElement::new`. -/
def ImageElement.new (src : String) : Element := .imageEl src none []

/-- `ImageElement::with_alt`. The Rust method exists only on `ImageElement`,
so the other cases are unreachable for faithful callers. -/
def ImageElement.with_alt (e : Element) (alt : String) : Element :=
  match e with
  | .imageEl src _ attrs => .imageEl src (some alt) attrs
  | e => e

/-- `ImageElement::with_attribute`: inserts into the extra-attribute map. -/
def ImageElement.with_attribute (e : Element) (k v : String) : Element :=
  match e with
  | .imageEl src alt attrs => .imageEl src alt (hmInsert attrs k v)
  | e => e

/-- `ContainerElement::new`. -/
def ContainerElement.new (tag : String) : Element := .containerEl tag [] [] [] none

/-- `ContainerElement::with_attribute`: inserts into the extra-attribute map. -/
def ContainerElement.with_attribute (e : Element) (k v : String) : Element :=
  match e with
  | .containerEl t attrs ch cls id => .containerEl t (hmInsert attrs k v) ch cls id
  | e => e

/-- `ContainerElement::with_child`: appends one child. -/
def ContainerElement.with_child (e child : Element) : Element :=
  match e with
  | .containerEl t attrs ch cls id => .containerEl t attrs (ch ++ [child]) cls id
  | e => e

/-- `ContainerElement::with_class`: appends one class name. -/
def ContainerElement.with_class (e : Element) (c : String) : Element :=
  match e with
  | .containerEl t attrs ch cls id => .containerEl t attrs ch (cls ++ [c]) id
  | e => e

/-- `ContainerElement::with_id`: sets the id. -/
def ContainerElement.with_id (e : Element) (i : String) : Element :=
  match e with
  | .containerEl t attrs ch cls _ => .containerEl t attrs ch cls (some i)
  | e => e

/-- `ContainerElement::with_text`: sugar for appending a `TextElement` child. -/
def ContainerElement.with_text (e : Element) (s : String) : Element :=
  ContainerElement.with_child e (.textEl s)

/-- One builder call in a container build description. -/
inductive BuildStep : Type where
  | attrStep : String → String → BuildStep
  | childStep : Element → BuildStep
  | classStep : String → BuildStep
  | idStep : String → BuildStep
  | textStep : String → BuildStep

/-- Interpretation of one builder call on an element. -/
def applyStep (e : Element) : BuildStep → Element
  | .attrStep k v => ContainerElement.with_attribute e k v
  | .childStep c => ContainerElement.with_child e c
  | .classStep c => ContainerElement.with_class e c
  | .idStep i => ContainerElement.with_id e i
  | .textStep s => ContainerElement.with_text e s

/-- Building a container tree from a description: `ContainerElement::new`
followed by the chained builder calls, in order. -/
def buildContainer (tag : String) (steps : List BuildStep) : Element :=
  steps.foldl applyStep (ContainerElement.new tag)

/-- Number of pairs in an attribute list carrying the given key. -/
def countKey (l : List (String × String)) (k : String) : Nat :=
  (l.filter (fun kv => kv.1 == k)).length

/-- Output-size budget of one rendered attribute list: four punctuation
characters plus key and value per pair. -/
def pairsWeight : List (String × String) → Nat
  | [] => 0
  | (k, v) :: rest => 4 + k.length + v.length + pairsWeight rest

/-- Output-size budget of an optional attribute list. -/
def attrsWeight : Option (List (String × String)) → Nat
  | none => 0
  | some l => pairsWeight l

/-- Output-size budget of an optional text. -/
def txtWeight : Option String → Nat
  | none => 0
  | some s => s.length

mutual
/-- Size measure of a trait view: bounded data of the node itself plus the
measures of its children, so the measure is linear in the tree. -/
def nodeWeight : Node → Nat
  | .mk t a x ch _ => 2 * t.length + attrsWeight a + txtWeight x + 6 + listWeight ch
/-- Size measure of a child list. -/
def listWeight : List Node → Nat
  | [] => 0
  | n :: ns => nodeWeight n + listWeight ns
end

/-- The built-in part of a container's attribute list: the id pair when the
id is set, then the class pair when the class list is non-empty. -/
def containerBuiltins (id : Option String) (cls : List String) : List (String × String) :=
  (match id with
    | some i => [("id", encode_attribute i)]
    | none => []) ++
  (if cls.isEmpty then []
    else [("class", encode_attribute (String.intercalate " " cls))])

/-- The built-in part of an image's attribute list: the src pair, then the
alt pair when alt is set. -/
def imageBuiltins (src : String) (alt : Option String) : List (String × String) :=
  ("src", encode_attribute src) ::
    (match alt with
      | some a => [("alt", encode_attribute a)]
      | none => [])

/-- The character list of an appended string is the appended character lists. -/
theorem data_append_eq (a b : String) : (a ++ b).data = a.data ++ b.data :=
  String.data_append a b

/-- The empty string has no characters. -/
theorem data_empty_eq : ("" : String).data = [] := rfl

/-- Child-loop output distributes over list append. -/
theorem renderList_append (l₁ l₂ : List Node) :
    renderList (l₁ ++ l₂) = renderList l₁ ++ renderList l₂ := by
  induction l₁ with
  | nil => apply String.ext; simp [renderList, data_append_eq, data_empty_eq]
  | cons n ns ih => apply String.ext; simp [renderList, data_append_eq, ih]

/-- Trait views of child lists distribute over list append. -/
theorem toNodes_append (l₁ l₂ : List Element) :
    toNodes (l₁ ++ l₂) = toNodes l₁ ++ toNodes l₂ := by
  induction l₁ with
  | nil => rfl
  | cons e es ih => simp [toNodes, ih]

/-- Every variant's `render()` agrees with the serializer applied to its trait
view; for `RawHtml` this is because the serializer's raw special case returns
the same content the override returns. -/
theorem render_eq_render_element (e : Element) :
    Element.render e = render_element (toNode e) := by
  cases e with
  | rawHtml c =>
    have h : ("" : String).isEmpty = true := rfl
    simp [Element.render, toNode, render_element, h]
  | textEl c => rfl
  | imageEl src alt attrs => rfl
  | containerEl t attrs ch cls id => rfl

/-- Unfolded serializer output of a container element. -/
theorem render_container (t : String) (m : List (String × String))
    (ch : List Element) (cls : List String) (id : Option String) :
    Element.render (.containerEl t m ch cls id) =
      "<" ++ t ++ attrsStr (containerAttributes id cls m) ++ ">" ++
        renderList (toNodes ch) ++ "</" ++ t ++ ">" := by
  apply String.ext
  simp [Element.render, toNode, render_element, data_append_eq]

/-- The serializer output of a non-void node contains each child's serializer
output as a contiguous substring. -/
theorem render_child_contained (t : String) (a : Option (List (String × String)))
    (x : Option String) (pre post : List Node) (d : Node) :
    (render_element d).data <:+:
      (render_element (.mk t a x (pre ++ d :: post) false)).data := by
  refine ⟨("<" ++ t ++ attrsStr a ++ ">" ++ x.getD "" ++ renderList pre).data,
          (renderList post ++ "</" ++ t ++ ">").data, ?_⟩
  simp [render_element, renderList_append, renderList, data_append_eq]

/-- A container's rendering contains each child's rendering as a contiguous
substring. -/
theorem render_mem_contained (t : String) (m : List (String × String))
    (cls : List String) (id : Option String) (pre post : List Element) (d : Element) :
    (Element.render d).data <:+:
      (Element.render (.containerEl t m (pre ++ d :: post) cls id)).data := by
  rw [render_eq_render_element d, render_eq_render_element]
  simp only [toNode, toNodes_append, toNodes]
  exact render_child_contained t (containerAttributes id cls m) none
    (toNodes pre) (toNodes post) (toNode d)

/-- The attribute loop produces exactly its weight in characters. -/
theorem attrPairs_length (l : List (String × String)) :
    (attrPairs l).length = pairsWeight l := by
  induction l with
  | nil => rfl
  | cons kv rest ih =>
    have e1 : (" " : String).length = 1 := rfl
    have e2 : ("=\"" : String).length = 2 := rfl
    have e3 : ("\"" : String).length = 1 := rfl
    cases kv with
    | mk k v =>
      simp only [attrPairs, pairsWeight, String.length_append, e1, e2, e3, ih]
      omega

/-- Attribute rendering produces exactly its weight in characters. -/
theorem attrsStr_length (a : Option (List (String × String))) :
    (attrsStr a).length = attrsWeight a := by
  cases a with
  | none => rfl
  | some l => exact attrPairs_length l

mutual
/-- The serializer's output length is bounded by the node's size measure. -/
theorem render_length_le : ∀ n : Node, (render_element n).length ≤ nodeWeight n
  | .mk t a x ch v => by
    have hch := renderList_length_le ch
    have ha : (attrsStr a).length = attrsWeight a := attrsStr_length a
    have hx : (x.getD "").length = txtWeight x := by cases x <;> rfl
    have e1 : ("<" : String).length = 1 := rfl
    have e2 : (" />" : String).length = 3 := rfl
    have e3 : (">" : String).length = 1 := rfl
    have e4 : ("</" : String).length = 2 := rfl
    simp only [render_element, nodeWeight]
    split
    · omega
    · split <;> simp only [String.length_append, e1, e2, e3, e4, ha, hx] <;> omega
/-- The child loop's output length is bounded by the list's size measure. -/
theorem renderList_length_le : ∀ l : List Node, (renderList l).length ≤ listWeight l
  | [] => by simp [renderList, listWeight]
  | n :: ns => by
    have h1 := render_length_le n
    have h2 := renderList_length_le ns
    simp only [renderList, listWeight, String.length_append]
    omega
end

/-- Inserting twice under the same key leaves only the second value. -/
theorem hmInsert_hmInsert (m : List (String × String)) (k v1 v2 : String) :
    hmInsert (hmInsert m k v1) k v2 = hmInsert m k v2 := by
  induction m with
  | nil => simp [hmInsert]
  | cons kv rest ih =>
    cases kv with
    | mk k0 v0 =>
      by_cases h : k0 = k
      · simp [hmInsert, h]
      · simp [hmInsert, h, ih]

/-- After an insert the inserted key is present, and exactly as often as it
already was when it was present at all. -/
theorem countKey_hmInsert (m : List (String × String)) (k v : String) :
    countKey (hmInsert m k v) k = max (countKey m k) 1 := by
  induction m with
  | nil => simp [hmInsert, countKey]
  | cons kv rest ih =>
    cases kv with
    | mk k0 v0 =>
      by_cases h : k0 = k
      · simp [hmInsert, countKey, h, List.filter]
      · simp only [hmInsert, countKey, h, if_false, List.filter] at ih ⊢
        have hb : (k0 == k) = false := by simpa using h
        simp [hb, ih]

/-- No encoded character produces a literal less-than sign. -/
theorem escapeChar_count_lt (c : Char) : (escapeChar c).count '<' = 0 := by
  unfold escapeChar
  split_ifs with h1 h2 h3
  · decide
  · decide
  · decide
  · rw [List.count_eq_zero]
    simp only [List.mem_singleton]
    exact fun hh => h2 hh.symm

/-- No encoded character produces a literal greater-than sign. -/
theorem escapeChar_count_gt (c : Char) : (escapeChar c).count '>' = 0 := by
  unfold escapeChar
  split_ifs with h1 h2 h3
  · decide
  · decide
  · decide
  · rw [List.count_eq_zero]
    simp only [List.mem_singleton]
    exact fun hh => h3 hh.symm

/-- Encoding preserves the number of double quotes of each character. -/
theorem escapeChar_count_dq (c : Char) :
    (escapeChar c).count dquote = [c].count dquote := by
  unfold escapeChar
  split_ifs with h1 h2 h3
  · subst h1; decide
  · subst h2; decide
  · subst h3; decide
  · rfl

/-- Encoding preserves the number of apostrophes of each character. -/
theorem escapeChar_count_apos (c : Char) :
    (escapeChar c).count apos = [c].count apos := by
  unfold escapeChar
  split_ifs with h1 h2 h3
  · subst h1; decide
  · subst h2; decide
  · subst h3; decide
  · rfl

/-- Character-count behavior of the full encoding, from the per-character
facts. -/
theorem count_flatMap_escapeChar (l : List Char) (q : Char)
    (hq : ∀ c, (escapeChar c).count q = [c].count q) :
    (l.flatMap escapeChar).count q = l.count q := by
  induction l with
  | nil => rfl
  | cons c rest ih =>
    rw [List.flatMap_cons, List.count_append, ih, hq c]
    simp only [List.count_cons, List.count_nil]
    omega

/-- The full encoding emits no occurrence of a character no single character
encodes to. -/
theorem count_flatMap_escapeChar_zero (l : List Char) (q : Char)
    (hq : ∀ c, (escapeChar c).count q = 0) :
    (l.flatMap escapeChar).count q = 0 := by
  induction l with
  | nil => rfl
  | cons c rest ih => rw [List.flatMap_cons, List.count_append, ih, hq c]

/-- A head character other than an ampersand can be peeled off a
decomposition of the list at an ampersand. -/
theorem peel_head (a : Char) (ha : a ≠ '&') (T l₁ l₂ : List Char)
    (h : a :: T = l₁ ++ '&' :: l₂) :
    ∃ m, l₁ = a :: m ∧ T = m ++ '&' :: l₂ := by
  cases l₁ with
  | nil =>
    simp only [List.nil_append, List.cons.injEq] at h
    exact absurd h.1 ha
  | cons x m =>
    simp only [List.cons_append, List.cons.injEq] at h
    exact ⟨m, by rw [h.1], h.2⟩

/-- Decomposing a list that itself starts with an ampersand at an ampersand:
either the decomposition points at the head, or it points into the tail. -/
theorem amp_head_split (T l₁ l₂ : List Char)
    (h : '&' :: T = l₁ ++ '&' :: l₂) :
    l₂ = T ∨ ∃ m, l₁ = '&' :: m ∧ T = m ++ '&' :: l₂ := by
  cases l₁ with
  | nil =>
    simp only [List.nil_append, List.cons.injEq, true_and] at h
    exact Or.inl h.symm
  | cons x m =>
    simp only [List.cons_append, List.cons.injEq] at h
    exact Or.inr ⟨m, by rw [h.1], h.2⟩

/-- Every ampersand in the encoded output starts one of the three entity
sequences produced by the encoding. -/
theorem flatMap_escapeChar_amp (l : List Char) :
    ∀ l₁ l₂ : List Char, l.flatMap escapeChar = l₁ ++ '&' :: l₂ →
      "amp;".data <+: l₂ ∨ "lt;".data <+: l₂ ∨ "gt;".data <+: l₂ := by
  induction l with
  | nil =>
    intro l₁ l₂ h
    simp at h
  | cons c rest ih =>
    intro l₁ l₂ h
    rw [List.flatMap_cons] at h
    by_cases h1 : c = '&'
    · subst h1
      have hE : escapeChar '&' = ['&', 'a', 'm', 'p', ';'] := by decide
      rw [hE] at h
      simp only [List.cons_append, List.nil_append] at h
      rcases amp_head_split _ _ _ h with hl₂ | ⟨m, _, hT⟩
      · subst hl₂
        have ha : ("amp;" : String).data = ['a', 'm', 'p', ';'] := by decide
        exact Or.inl ⟨rest.flatMap escapeChar, by rw [ha]; rfl⟩
      · obtain ⟨m1, _, hT1⟩ := peel_head 'a' (by decide) _ _ _ hT
        obtain ⟨m2, _, hT2⟩ := peel_head 'm' (by decide) _ _ _ hT1
        obtain ⟨m3, _, hT3⟩ := peel_head 'p' (by decide) _ _ _ hT2
        obtain ⟨m4, _, hT4⟩ := peel_head ';' (by decide) _ _ _ hT3
        exact ih m4 l₂ hT4
    · by_cases h2 : c = '<'
      · subst h2
        have hE : escapeChar '<' = ['&', 'l', 't', ';'] := by decide
        rw [hE] at h
        simp only [List.cons_append, List.nil_append] at h
        rcases amp_head_split _ _ _ h with hl₂ | ⟨m, _, hT⟩
        · subst hl₂
          have ha : ("lt;" : String).data = ['l', 't', ';'] := by decide
          exact Or.inr (Or.inl ⟨rest.flatMap escapeChar, by rw [ha]; rfl⟩)
        · obtain ⟨m1, _, hT1⟩ := peel_head 'l' (by decide) _ _ _ hT
          obtain ⟨m2, _, hT2⟩ := peel_head 't' (by decide) _ _ _ hT1
          obtain ⟨m3, _, hT3⟩ := peel_head ';' (by decide) _ _ _ hT2
          exact ih m3 l₂ hT3
      · by_cases h3 : c = '>'
        · subst h3
          have hE : escapeChar '>' = ['&', 'g', 't', ';'] := by decide
          rw [hE] at h
          simp only [List.cons_append, List.nil_append] at h
          rcases amp_head_split _ _ _ h with hl₂ | ⟨m, _, hT⟩
          · subst hl₂
            have ha : ("gt;" : String).data = ['g', 't', ';'] := by decide
            exact Or.inr (Or.inr ⟨rest.flatMap escapeChar, by rw [ha]; rfl⟩)
          · obtain ⟨m1, _, hT1⟩ := peel_head 'g' (by decide) _ _ _ hT
            obtain ⟨m2, _, hT2⟩ := peel_head 't' (by decide) _ _ _ hT1
            obtain ⟨m3, _, hT3⟩ := peel_head ';' (by decide) _ _ _ hT2
            exact ih m3 l₂ hT3
        · have hE : escapeChar c = [c] := by simp [escapeChar, h1, h2, h3]
          rw [hE, List.singleton_append] at h
          obtain ⟨m, _, hT⟩ := peel_head c h1 _ _ _ h
          exact ih m l₂ hT

/-- C1, counterexample: the escaping primitive applied to the one-character
string holding a double quote returns that same string, whose single
character is a literal double quote not part of any entity sequence — so the
primitive does not escape all five HTML-significant characters. -/
theorem spec_c1_counterexample :
    encode_attribute (String.mk [dquote]) = String.mk [dquote] ∧
      (encode_attribute (String.mk [dquote])).data.count dquote = 1 ∧
      encode_attribute aposStr = aposStr ∧
      (encode_attribute aposStr).data.count apos = 1 := by
  refine ⟨by decide, by decide, by decide, by decide⟩

/-- C1, amended: for every string, the escaping primitive
(`encode_attribute`, i.e. `encode_text`) produces no literal less-than and no
literal greater-than sign, every ampersand of its output starts one of the
entity sequences amp; lt; gt;, and double quotes and apostrophes pass through
unchanged in number — it escapes the three characters ampersand, less-than,
greater-than, not all five. -/
theorem spec_c1_escapes (s : String) :
    (encode_attribute s).data.count '<' = 0 ∧
    (encode_attribute s).data.count '>' = 0 ∧
    (encode_attribute s).data.count dquote = s.data.count dquote ∧
    (encode_attribute s).data.count apos = s.data.count apos ∧
    (∀ l₁ l₂ : List Char, (encode_attribute s).data = l₁ ++ '&' :: l₂ →
      "amp;".data <+: l₂ ∨ "lt;".data <+: l₂ ∨ "gt;".data <+: l₂) := by
  have hdata : (encode_attribute s).data = s.data.flatMap escapeChar := rfl
  refine ⟨?_, ?_, ?_, ?_, ?_⟩
  · rw [hdata]; exact count_flatMap_escapeChar_zero s.data '<' escapeChar_count_lt
  · rw [hdata]; exact count_flatMap_escapeChar_zero s.data '>' escapeChar_count_gt
  · rw [hdata]; exact count_flatMap_escapeChar s.data dquote escapeChar_count_dq
  · rw [hdata]; exact count_flatMap_escapeChar s.data apos escapeChar_count_apos
  · intro l₁ l₂ h
    refine flatMap_escapeChar_amp s.data l₁ l₂ ?_
    rw [← hdata]
    exact h

/-- C1 witness: the amended theorem applied at a concrete input holding an
ampersand, discharging the decomposition hypothesis of the entity conjunct
at the single ampersand of the output. -/
theorem spec_c1_escapes_witness :
    (encode_attribute "a&b").data = ['a'] ++ '&' :: ['a', 'm', 'p', ';', 'b'] ∧
    ("amp;".data <+: ['a', 'm', 'p', ';', 'b'] ∨
      "lt;".data <+: ['a', 'm', 'p', ';', 'b'] ∨
      "gt;".data <+: ['a', 'm', 'p', ';', 'b']) :=
  ⟨by decide,
    (spec_c1_escapes "a&b").2.2.2.2 ['a'] ['a', 'm', 'p', ';', 'b'] (by decide)⟩

/-- C2: the text accessor of a Text node is the escaped input with every
literal apostrophe of the escaped result replaced by the entity, rendering
wraps that text in a span tag, and the spec's concrete script example renders
to exactly the expected entity-encoded span. -/
theorem spec_c2_text_node (s : String) :
    TextElement.text s = some (replaceApos (encode_text s)) ∧
    Element.render (.textEl s) = "<span>" ++ replaceApos (encode_text s) ++ "</span>" ∧
    Element.render (.textEl ("<script>alert(" ++ aposStr ++ "x" ++ aposStr ++ ")</script>")) =
      "<span>&lt;script&gt;alert(&#x27;x&#x27;)&lt;/script&gt;</span>" := by
  refine ⟨rfl, ?_, by decide⟩
  apply String.ext
  simp [Element.render, toNode, render_element, renderList, TextElement.text,
    attrsStr, data_append_eq, data_empty_eq]

/-- A string whose `isEmpty` test succeeds is the empty string. -/
theorem isEmpty_true_eq (s : String) (h : s.isEmpty = true) : s = "" := by
  cases s with
  | mk l =>
    cases l with
    | nil => rfl
    | cons c cs =>
      simp only [String.isEmpty, String.endPos, String.utf8ByteSize, beq_iff_eq] at h
      have h2 : String.utf8Len (c :: cs) = 0 := congrArg String.Pos.byteIdx h
      rw [String.utf8Len_cons] at h2
      have h3 := Char.utf8Size_pos c
      omega

/-- C3: the serializer renders any node whose void flag is set and whose tag
is non-empty as the opening tag and attributes followed by a space and a
self-closing bracket — whatever text and children the node reports are
dropped, and no closing tag is emitted. -/
theorem spec_c3_void_precedence (t : String) (a : Option (List (String × String)))
    (x : Option String) (ch : List Node) (h : t ≠ "") :
    render_element (.mk t a x ch true) = "<" ++ t ++ attrsStr a ++ " />" := by
  have hne : t.isEmpty = false := by
    cases hb : t.isEmpty
    · rfl
    · exact absurd (isEmpty_true_eq t hb) h
  simp [render_element, hne]

/-- C3 witness: a concrete void node carrying text and a child renders with
neither. -/
theorem spec_c3_void_precedence_witness :
    ("img" : String) ≠ "" ∧
      render_element (.mk "img" (some [("a", "b")]) (some "boom")
        [Node.mk "p" none none [] false] true) = "<img a=\"b\" />" := by
  refine ⟨by decide, ?_⟩
  rw [spec_c3_void_precedence "img" (some [("a", "b")]) (some "boom")
    [Node.mk "p" none none [] false] (by decide)]
  decide

/-- C4: rendering a Raw node returns its content exactly, with no escaping
and no wrapping, both through the overridden `render` of `RawHtml` and
through the generic serializer's special case for an empty tag with the void
flag set. -/
theorem spec_c4_raw_identity (s : String) :
    Element.render (.rawHtml s) = s ∧ render_element (toNode (.rawHtml s)) = s := by
  constructor
  · rfl
  · have h : ("" : String).isEmpty = true := rfl
    simp [toNode, render_element, h]

/-- C5: a Container's attribute list is absent exactly when id, classes and
extra attributes are all empty; when the id is set it comes first, followed by
the space-joined class value when classes exist and then the extras; with no
id the non-empty class list comes first; and a Container with nothing set
renders with no attribute text and no space before the closing bracket. -/
theorem spec_c5_container_attributes :
    (∀ (id : Option String) (cls : List String) (m : List (String × String)),
      (containerAttributes id cls m = none ↔ id = none ∧ cls = [] ∧ m = [])) ∧
    (∀ (i : String) (cls : List String) (m : List (String × String)),
      containerAttributes (some i) cls m =
        some ([("id", encode_attribute i)] ++
          (if cls.isEmpty then []
            else [("class", encode_attribute (String.intercalate " " cls))]) ++
          m.map (fun kv => (encode_attribute kv.1, encode_attribute kv.2)))) ∧
    (∀ (c : String) (cs : List String) (m : List (String × String)),
      containerAttributes none (c :: cs) m =
        some (("class", encode_attribute (String.intercalate " " (c :: cs))) ::
          m.map (fun kv => (encode_attribute kv.1, encode_attribute kv.2)))) ∧
    (∀ (t : String) (ch : List Element),
      Element.render (.containerEl t [] ch [] none) =
        "<" ++ t ++ ">" ++ renderList (toNodes ch) ++ "</" ++ t ++ ">") := by
  refine ⟨?_, ?_, ?_, ?_⟩
  · intro id cls m
    cases id <;> cases cls <;> cases m <;> simp [containerAttributes]
  · intro i cls m
    cases cls <;> simp [containerAttributes]
  · intro c cs m
    simp [containerAttributes]
  · intro t ch
    rw [render_container]
    apply String.ext
    simp [containerAttributes, attrsStr, data_append_eq, data_empty_eq]

/-- C6: for a Container C holding a Container D among its children, D itself
holding a child E, the rendering of D occurs contiguously inside the
rendering of C, and the rendering of E occurs contiguously inside the
rendering of D — containment is preserved through the depth-first recursion. -/
theorem spec_c6_nesting (tC tD : String) (aC aD : List (String × String))
    (clC clD : List String) (iC iD : Option String)
    (pre post pre2 post2 : List Element) (E : Element) :
    (Element.render (.containerEl tD aD (pre2 ++ E :: post2) clD iD)).data <:+:
      (Element.render (.containerEl tC aC
        (pre ++ (Element.containerEl tD aD (pre2 ++ E :: post2) clD iD) :: post)
        clC iC)).data ∧
    (Element.render E).data <:+:
      (Element.render (.containerEl tD aD (pre2 ++ E :: post2) clD iD)).data :=
  ⟨render_mem_contained tC aC clC iC pre post
      (.containerEl tD aD (pre2 ++ E :: post2) clD iD),
    render_mem_contained tD aD clD iD pre2 post2 E⟩

/-- C7: rendering is a total function on element trees and its output length
is bounded by the tree's size measure, which is linear in the tags,
attributes, texts and number of nodes of the tree. -/
theorem spec_c7_render_total_bounded (e : Element) :
    (Element.render e).length ≤ nodeWeight (toNode e) := by
  rw [render_eq_render_element]
  exact render_length_le (toNode e)

/-- Lists related by a permutation are empty together. -/
theorem perm_isEmpty_eq {α : Type} {l₁ l₂ : List α} (h : l₁.Perm l₂) :
    l₁.isEmpty = l₂.isEmpty := by
  have hl := h.length_eq
  cases l₁ <;> cases l₂ <;> simp_all

/-- The attribute loop emits one character block per pair, in list order. -/
theorem attrPairs_data_eq (l : List (String × String)) :
    (attrPairs l).data =
      l.flatMap (fun kv => (" " ++ kv.1 ++ "=\"" ++ kv.2 ++ "\"").data) := by
  induction l with
  | nil => rfl
  | cons kv rest ih =>
    cases kv with
    | mk k v => simp [attrPairs, data_append_eq, ih, List.flatMap_cons]

/-- Permuting the attribute pairs permutes the emitted characters. -/
theorem attrPairs_perm {l₁ l₂ : List (String × String)} (h : l₁.Perm l₂) :
    (attrPairs l₁).data.Perm (attrPairs l₂).data := by
  rw [attrPairs_data_eq, attrPairs_data_eq]
  exact h.flatMap_right _

/-- Closed form of `ContainerElement::attributes`: the built-in pairs
followed by the encoded extras, or nothing when both are empty. -/
theorem containerAttributes_eq (id : Option String) (cls : List String)
    (m : List (String × String)) :
    containerAttributes id cls m =
      if (containerBuiltins id cls ++
          m.map (fun kv => (encode_attribute kv.1, encode_attribute kv.2))).isEmpty then none
      else some (containerBuiltins id cls ++
        m.map (fun kv => (encode_attribute kv.1, encode_attribute kv.2))) := by
  cases id <;> by_cases hc : cls.isEmpty <;>
    simp [containerAttributes, containerBuiltins, hc]

/-- Closed form of `ImageElement::attributes`: the built-in pairs followed by
the value-encoded extras, always present. -/
theorem imageAttributes_eq (src : String) (alt : Option String)
    (m : List (String × String)) :
    imageAttributes src alt m =
      some (imageBuiltins src alt ++ m.map (fun kv => (kv.1, encode_attribute kv.2))) := by
  cases alt <;> simp [imageAttributes, imageBuiltins]

/-- Permuting a container's extras permutes the characters of its rendered
attribute section. -/
theorem attrsStr_container_perm (id : Option String) (cls : List String)
    {m₁ m₂ : List (String × String)} (h : m₁.Perm m₂) :
    (attrsStr (containerAttributes id cls m₁)).data.Perm
      (attrsStr (containerAttributes id cls m₂)).data := by
  rw [containerAttributes_eq, containerAttributes_eq]
  have hr : (containerBuiltins id cls ++
      m₁.map (fun kv => (encode_attribute kv.1, encode_attribute kv.2))).Perm
      (containerBuiltins id cls ++
        m₂.map (fun kv => (encode_attribute kv.1, encode_attribute kv.2))) :=
    List.Perm.append_left _ (h.map _)
  have he := perm_isEmpty_eq hr
  cases hb : (containerBuiltins id cls ++
      m₁.map (fun kv => (encode_attribute kv.1, encode_attribute kv.2))).isEmpty with
  | true =>
    rw [hb] at he
    rw [← he]
    exact List.Perm.refl _
  | false =>
    rw [hb] at he
    rw [← he]
    simp only [Bool.false_eq_true, if_false, attrsStr]
    exact attrPairs_perm hr

/-- Permuting a container's extras permutes the characters of its whole
rendering, leaving everything outside the attribute section untouched. -/
theorem render_container_perm (t : String) {m₁ m₂ : List (String × String)}
    (ch : List Element) (cls : List String) (id : Option String) (h : m₁.Perm m₂) :
    (Element.render (.containerEl t m₁ ch cls id)).data.Perm
      (Element.render (.containerEl t m₂ ch cls id)).data := by
  rw [render_container, render_container]
  simp only [data_append_eq]
  have hX := attrsStr_container_perm id cls h
  exact (((((List.Perm.append_left _ hX).append_right _).append_right _).append_right
    _).append_right _).append_right _

/-- Unfolded serializer output of an image element. -/
theorem render_image (src : String) (alt : Option String) (m : List (String × String)) :
    Element.render (.imageEl src alt m) =
      "<" ++ "img" ++ attrsStr (imageAttributes src alt m) ++ " />" := by
  have himg : ("img" : String).isEmpty = false := rfl
  simp [Element.render, toNode, render_element, himg]

/-- Permuting an image's extras permutes the characters of its rendering. -/
theorem render_image_perm (src : String) (alt : Option String)
    {m₁ m₂ : List (String × String)} (h : m₁.Perm m₂) :
    (Element.render (.imageEl src alt m₁)).data.Perm
      (Element.render (.imageEl src alt m₂)).data := by
  rw [render_image, render_image]
  simp only [data_append_eq]
  have hX : (attrsStr (imageAttributes src alt m₁)).data.Perm
      (attrsStr (imageAttributes src alt m₂)).data := by
    rw [imageAttributes_eq, imageAttributes_eq]
    simp only [attrsStr]
    exact attrPairs_perm (List.Perm.append_left _ (h.map _))
  exact (List.Perm.append_left _ hX).append_right _

/-- C8, counterexample: std HashMap iterates in a per-map-instance order
(every `RandomState::new` draws a fresh key from a thread-local counter), so
two builds of one description can observe the same two extra attributes in
either order; the two admissible iteration orders of one extras map — lists
that are permutations of each other — render a container to two different
byte strings, refuting byte-identity of repeated builds. -/
theorem spec_c8_counterexample :
    ([("a", "1"), ("b", "2")] : List (String × String)).Perm [("b", "2"), ("a", "1")] ∧
    Element.render (.containerEl "div" [("a", "1"), ("b", "2")] [] [] none) =
      "<div a=\"1\" b=\"2\"></div>" ∧
    Element.render (.containerEl "div" [("b", "2"), ("a", "1")] [] [] none) =
      "<div b=\"2\" a=\"1\"></div>" ∧
    (Element.render (.containerEl "div" [("a", "1"), ("b", "2")] [] [] none) ==
        Element.render (.containerEl "div" [("b", "2"), ("a", "1")] [] [] none)) = false := by
  refine ⟨by decide, by decide, by decide, by decide⟩

/-- C8, amended: the build-then-render pipeline has no state other than the
unspecified per-map iteration order of the extra-attribute maps — building
one description twice yields equal trees and byte-identical output whenever
the observed iteration orders coincide, and under any two admissible orders
the outputs of a container or image node are character-for-character
permutations of each other, differing only in the order of that node's
attribute pairs. -/
theorem spec_c8_deterministic_up_to_order :
    (∀ (tag : String) (steps1 steps2 : List BuildStep), steps1 = steps2 →
      buildContainer tag steps1 = buildContainer tag steps2 ∧
      Element.render (buildContainer tag steps1) =
        Element.render (buildContainer tag steps2)) ∧
    (∀ (t : String) (m₁ m₂ : List (String × String)) (ch : List Element)
        (cls : List String) (id : Option String), m₁.Perm m₂ →
      (Element.render (.containerEl t m₁ ch cls id)).data.Perm
        (Element.render (.containerEl t m₂ ch cls id)).data) ∧
    (∀ (src : String) (alt : Option String) (m₁ m₂ : List (String × String)),
      m₁.Perm m₂ →
      (Element.render (.imageEl src alt m₁)).data.Perm
        (Element.render (.imageEl src alt m₂)).data) := by
  refine ⟨?_, ?_, ?_⟩
  · intro tag steps1 steps2 h
    subst h
    exact ⟨rfl, rfl⟩
  · intro t m₁ m₂ ch cls id h
    exact render_container_perm t ch cls id h
  · intro src alt m₁ m₂ h
    exact render_image_perm src alt h

/-- C8 witness: the amended theorem applied to a concrete description built
twice (identical bytes) and to the two iteration orders of a concrete
two-entry extras map (character permutation). -/
theorem spec_c8_deterministic_up_to_order_witness :
    (Element.render (buildContainer "div" [BuildStep.classStep "a", BuildStep.textStep "hi"]) =
      Element.render (buildContainer "div" [BuildStep.classStep "a", BuildStep.textStep "hi"])) ∧
    (([("a", "1"), ("b", "2")] : List (String × String)).Perm [("b", "2"), ("a", "1")] ∧
      (Element.render (.containerEl "div" [("a", "1"), ("b", "2")] [] [] none)).data.Perm
        (Element.render (.containerEl "div" [("b", "2"), ("a", "1")] [] [] none)).data) :=
  ⟨(spec_c8_deterministic_up_to_order.1 "div" _ _ rfl).2,
    by decide,
    spec_c8_deterministic_up_to_order.2.1 "div" _ _ [] [] none (by decide)⟩

/-- C9 counterexample: on an image whose source is set, adding the extra
attribute `src` makes the key `src` appear twice in the attribute list (once
from the required source field, once from the extras), so the key does not
appear at most once in the rendered output. -/
theorem spec_c9_counterexample :
    (Element.attributes (ImageElement.with_attribute (ImageElement.new "a") "src" "b")).getD []
      = [("src", "a"), ("src", "b")] ∧
    countKey
      ((Element.attributes (ImageElement.with_attribute (ImageElement.new "a") "src" "b")).getD [])
      "src" = 2 := by
  refine ⟨by decide, by decide⟩

/-- C9, amended: on Container and Image nodes, inserting the same key twice
yields the same attribute list as inserting only the second value (the last
value for a key wins), and the key occurs exactly once in the extra-attribute
map after an insert whenever it occurred at most once before; but a key equal
to a built-in attribute name (src or alt on an image, id or class on a
container) additionally appears from the built-in field, so such a key can
occur twice in the rendered output. -/
theorem spec_c9_last_wins :
    (∀ (src : String) (alt : Option String) (m : List (String × String)) (k v1 v2 : String),
      Element.attributes
          (ImageElement.with_attribute (ImageElement.with_attribute (.imageEl src alt m) k v1) k v2)
        = Element.attributes (ImageElement.with_attribute (.imageEl src alt m) k v2)) ∧
    (∀ (t : String) (m : List (String × String)) (ch : List Element)
        (cls : List String) (id : Option String) (k v1 v2 : String),
      Element.attributes
          (ContainerElement.with_attribute
            (ContainerElement.with_attribute (.containerEl t m ch cls id) k v1) k v2)
        = Element.attributes (ContainerElement.with_attribute (.containerEl t m ch cls id) k v2)) ∧
    (∀ (m : List (String × String)) (k v : String),
      countKey (hmInsert m k v) k = max (countKey m k) 1) := by
  refine ⟨?_, ?_, ?_⟩
  · intro src alt m k v1 v2
    simp [ImageElement.with_attribute, hmInsert_hmInsert]
  · intro t m ch cls id k v1 v2
    simp [ContainerElement.with_attribute, hmInsert_hmInsert]
  · exact countKey_hmInsert

/-- C10: a Container built with the empty string as tag is not void, so the
raw-passthrough special case (which requires the void flag as well) does not
apply: it renders as an empty-named tag pair around its children, not as
verbatim content — concretely, wrapping raw content `x` yields an output of
length six, not the one-character passthrough. -/
theorem spec_c10_empty_tag_container (ch : List Element) (m : List (String × String))
    (cls : List String) (id : Option String) :
    (toNode (.containerEl "" m ch cls id)).is_void = false ∧
    Element.render (.containerEl "" [] ch [] none) =
      "<>" ++ renderList (toNodes ch) ++ "</>" ∧
    Element.render (.containerEl "" [] [.rawHtml "x"] [] none) = "<>x</>" ∧
    (Element.render (.containerEl "" [] [.rawHtml "x"] [] none)).length = 6 ∧
    (Element.render (.rawHtml "x")).length = 1 := by
  refine ⟨rfl, ?_, by decide, by decide, by decide⟩
  rw [render_container]
  apply String.ext
  simp [containerAttributes, attrsStr, data_append_eq, data_empty_eq]
